import Mathlib

/-!
# Verification of the `GridMap` grid-graph backend (`src/sample/grid_map.h`)

Shallow embedding of the square-tile grid map used by the fudge_pathfinding
best-first search engine.  The cost type `CostType` is instantiated at exact
rationals (`ℚ`), standing for the C++ default `double`; coordinates (`Coord`,
a `std::pair<int,int>`) are pairs of integers.

The headers `vertex_matrix.h`, `grid_node_array.h`, `binary_heap.h`,
`hot_queue.h`, `node_state.h` and `search_stats.h` are not part of the
source tree given; the definitions that depend on them are modelled from the
specification and are marked `Modelled from the spec:` in their doc comments.
-/

namespace GridMapModel

/-- `Coord` — `std::pair<int, int>` of `map.h`: an ordered pair of integers. -/
abbrev Coord := ℤ × ℤ

/-- Modelled from the spec: `node_state.h` is not in the source tree.  The
per-cell visitation states of §4.3: `unexplored → open → closed → open → …`,
plus the path-reconstruction annotations `result`, `start` and `goal`
(cf. the `syms` rendering table in `grid_map.h`). -/
inductive NodeState where
  | unexplored
  | open
  | closed
  | result
  | start
  | goal
deriving DecidableEq, Repr

/-- One `GridNode<CostType>` record: visitation state, cost-so-far `g_`,
estimated total cost `f_`, and the parent link `parent_`.  In the C++ the
parent is a pointer to the parent cell's record and is only ever read through
`parent_->c_` (the parent's own immutable coordinate `c_`), so it is embedded
directly as the parent's coordinate. -/
structure GridNode where
  state : NodeState
  g : ℚ
  f : ℚ
  parent : Coord
deriving DecidableEq, Repr

/-- Modelled from the spec: `search_stats.h` is not in the source tree.  The
four monotonically increasing counters of §3. -/
structure SearchStats where
  nodes_opened : ℕ
  nodes_reopened : ℕ
  nodes_closed : ℕ
  nodes_priority_increased : ℕ
deriving DecidableEq, Repr

/-- Modelled from the spec: `vertex_matrix.h` is not in the source tree.
Immutable per-cell terrain weights over a fixed `w × h` grid (§4.1); the
stored weights are kept abstract as a total function on coordinates. -/
structure VertexMatrix where
  w : ℤ
  h : ℤ
  weight : Coord → ℚ

/-- Modelled from the spec: `is_passable(c)` returns `weight(c) >= 0` AND
`c` is within `[0, w) × [0, h)` (§4.1). -/
def VertexMatrix.is_passable (m : VertexMatrix) (c : Coord) : Bool :=
  decide (0 ≤ m.weight c) && decide (0 ≤ c.1) && decide (c.1 < m.w) &&
    decide (0 ≤ c.2) && decide (c.2 < m.h)

/-- The mutable search state of one `GridMap<CostType>`: the node store
`node_array_` (a total map from coordinates to records), the open list
`open_list_` (the multiset of cells currently held by the `HotQueue`,
in insertion order), and the statistics `stats_`. -/
structure GridMapState where
  nodes : Coord → GridNode
  openList : List Coord
  stats : SearchStats

/-- Point update of the node store (mutating `*node(n)` in place). -/
def updateNode (f : Coord → GridNode) (n : Coord) (v : GridNode) :
    Coord → GridNode :=
  fun c => if c = n then v else f c

/-- `GridMap::kDiagonalEdgeWeight = static_cast<CostType>(1.4143)`. -/
def kDiagonalEdgeWeight : ℚ := 14143 / 10000

/-- `GridMap::kStraightEdgeWeight = static_cast<CostType>(1.0)`. -/
def kStraightEdgeWeight : ℚ := 1

/-- `x(n)` — `n.first`. -/
def x (n : Coord) : ℤ := n.1

/-- `y(n)` — `n.second`. -/
def y (n : Coord) : ℤ := n.2

/-- `GridMap::manhattan_distance`: `abs(x(n1)-x(n0)) + abs(y(n1)-y(n0))`,
computed over `int` and then cast to the cost type. -/
def manhattan_distance (n0 n1 : Coord) : ℚ :=
  ((|x n1 - x n0| + |y n1 - y n0| : ℤ) : ℚ)

/-- `GridMap::diagonal_distance`:
`dmin * kDiagonalEdgeWeight + (dmax - dmin) * kStraightEdgeWeight` where
`dmin`/`dmax` are the min/max of the absolute coordinate deltas. -/
def diagonal_distance (n0 n1 : Coord) : ℚ :=
  let dx : ℤ := |x n1 - x n0|
  let dy : ℤ := |y n1 - y n0|
  let dmin : ℤ := min dx dy
  let dmax : ℤ := max dx dy
  (dmin : ℚ) * kDiagonalEdgeWeight + ((dmax : ℚ) - (dmin : ℚ)) * kStraightEdgeWeight

/-- The radicand `dx*dx + dy*dy` of `GridMap::duclidean_distance`, with
`dx = abs(x(n1)-x(n0))` and `dy = abs(y(n1)-y(n0))` as in the source. -/
def duclidean_radicand (n0 n1 : Coord) : ℤ :=
  |x n1 - x n0| * |x n1 - x n0| + |y n1 - y n0| * |y n1 - y n0|

/-- `GridMap::duclidean_distance`: `sqrt(dx*dx + dy*dy)`.  The C++ computes
with `double`; the embedding idealises the square root at real precision. -/
noncomputable def duclidean_distance (n0 n1 : Coord) : ℝ :=
  Real.sqrt ((duclidean_radicand n0 n1 : ℤ) : ℝ)

/-- The `x_offsets_`/`y_offsets_` table of `coord_4_neighbors`, paired:
`(0,-1), (-1,0), (1,0), (0,1)`. -/
def coord_4_offsets : List (ℤ × ℤ) :=
  [(0, -1), (-1, 0), (1, 0), (0, 1)]

/-- The `x_offsets_`/`y_offsets_` table of `coord_8_neighbors`, paired:
`(-1,-1), (0,-1), (1,-1), (-1,0), (1,0), (-1,1), (0,1), (1,1)`. -/
def coord_8_offsets : List (ℤ × ℤ) :=
  [(-1, -1), (0, -1), (1, -1), (-1, 0), (1, 0), (-1, 1), (0, 1), (1, 1)]

/-- `GridMap::coord_4_neighbors`: push `Coord(c.first + x_offsets_[i],
c.second + y_offsets_[i])` for `i = 0..3`. -/
def coord_4_neighbors (c : Coord) : List Coord :=
  coord_4_offsets.map fun d => (c.1 + d.1, c.2 + d.2)

/-- `GridMap::coord_8_neighbors`: push `Coord(c.first + x_offsets_[i],
c.second + y_offsets_[i])` for `i = 0..7`. -/
def coord_8_neighbors (c : Coord) : List Coord :=
  coord_8_offsets.map fun d => (c.1 + d.1, c.2 + d.2)

/-- The Manhattan distance `d = abs(y(c1)-y(c0)) + abs(x(c1)-x(c0))`
computed at the top of `GridMap::edge_weight`, over `int`. -/
def edgeManhattan (c0 c1 : Coord) : ℤ :=
  |y c1 - y c0| + |x c1 - x c0|

/-- `GridMap::edge_weight`: the diagonal weight when `d == 2`, the straight
weight when `d == 1`; otherwise the source hits `assert(0)` and (in a build
with assertions disabled) returns `0`. -/
def edge_weight (c0 c1 : Coord) : ℚ :=
  let d := edgeManhattan c0 c1
  if d = 2 then kDiagonalEdgeWeight
  else if d = 1 then kStraightEdgeWeight
  else 0

/-- Whether the `assert(0)` branch of `GridMap::edge_weight` is reached:
exactly when the Manhattan distance is neither `1` nor `2`. -/
def edge_weight_assert_reached (c0 c1 : Coord) : Bool :=
  let d := edgeManhattan c0 c1
  !(decide (d = 2) || decide (d = 1))

/-- `GridMap::edge_cost(n0, n1) = vertex_matrix_.weight(n1) * edge_weight(n0, n1)`. -/
def edge_cost (m : VertexMatrix) (n0 n1 : Coord) : ℚ :=
  m.weight n1 * edge_weight n0 n1

/-- The immutable configuration of one `GridMap`: the vertex cost matrix and
the `enable_diagonal_` flag fixed at construction. -/
structure GridMapCfg where
  vm : VertexMatrix
  enable_diagonal : Bool

/-- An `Edge<Coord, CostType>(from, to, cost)` triple. -/
abbrev GridEdge := Coord × Coord × ℚ

/-- `GridMap::edges`: enumerate the 8 neighbors when `enable_diagonal_` and
the 4 neighbors otherwise, keep those passing `vertex_matrix_.is_passable`,
and emit `Edge(n, c, edge_cost(n, c))` for each kept neighbor. -/
def edges (cfg : GridMapCfg) (n : Coord) : List GridEdge :=
  let coords := if cfg.enable_diagonal then coord_8_neighbors n
                else coord_4_neighbors n
  (coords.filter fun c => cfg.vm.is_passable c).map
    fun c => (n, c, edge_cost cfg.vm n c)

/-- `GridMap::current_cost(n) = node(n)->g_`. -/
def current_cost (s : GridMapState) (n : Coord) : ℚ :=
  (s.nodes n).g

/-- `GridMap::node_unexplored(n)`. -/
def node_unexplored (s : GridMapState) (n : Coord) : Prop :=
  (s.nodes n).state = NodeState.unexplored

/-- `GridMap::node_open(n)`. -/
def node_open (s : GridMapState) (n : Coord) : Prop :=
  (s.nodes n).state = NodeState.open

/-- `GridMap::open_node_available() = !open_list_.is_empty()`. -/
def open_node_available (s : GridMapState) : Prop :=
  s.openList ≠ []

/-- `GridMap::open_node(n, g, h, p)`: set `parent_`, `g_`, `f_ = g + h`,
insert the record into `open_list_`, set `state_ = open`, and increment
`stats_.nodes_opened`.  The `HotQueue`/`BinaryHeap` insert appends the
element (and re-heapifies, which does not change the multiset of entries);
the open list is embedded as that multiset, in insertion order. -/
def open_node (s : GridMapState) (n : Coord) (g h : ℚ) (p : Coord) :
    GridMapState :=
  { nodes := updateNode s.nodes n
      { state := NodeState.open, g := g, f := g + h, parent := p }
    openList := s.openList ++ [n]
    stats := { s.stats with nodes_opened := s.stats.nodes_opened + 1 } }

/-- `GridMap::reopen_node(n, g, h, p)`: the same record and open-list updates
as `open_node`, incrementing `stats_.nodes_reopened` instead.  The source
performs no check that the cell is currently `closed`. -/
def reopen_node (s : GridMapState) (n : Coord) (g h : ℚ) (p : Coord) :
    GridMapState :=
  { nodes := updateNode s.nodes n
      { state := NodeState.open, g := g, f := g + h, parent := p }
    openList := s.openList ++ [n]
    stats := { s.stats with nodes_reopened := s.stats.nodes_reopened + 1 } }

/-- `GridMap::increase_node_priority(n, g, h, p)`: set `parent_` and `g_`,
then `open_list_.increase_priority(node(n), g + h)` — which per §4.2 stores
the new `f` in the record and restores heap order in place, leaving the
multiset of queue entries unchanged — and increment
`stats_.nodes_priority_increased`.  The source performs no check that the
cell is currently `open`. -/
def increase_node_priority (s : GridMapState) (n : Coord) (g h : ℚ)
    (p : Coord) : GridMapState :=
  { nodes := updateNode s.nodes n
      { s.nodes n with parent := p, g := g, f := g + h }
    openList := s.openList
    stats := { s.stats with
      nodes_priority_increased := s.stats.nodes_priority_increased + 1 } }

/-- Modelled from the spec: `binary_heap.h`/`hot_queue.h` are not in the
source tree.  `remove_front` returns a minimum-`f` element (§4.2), with the
unspecified tie broken towards the earliest inserted; priorities are read
from the records' current `f_` at comparison time.  This is the independent
linear-scan oracle of §8. -/
def minFCoord (s : GridMapState) : List Coord → Option Coord
  | [] => none
  | c :: l =>
    match minFCoord s l with
    | none => some c
    | some m => some (if (s.nodes c).f ≤ (s.nodes m).f then c else m)

/-- Modelled from the spec: popping the front of the open list removes one
occurrence of a minimum-`f` element and returns it; it errors (`none`) on an
empty queue. -/
def removeFront (s : GridMapState) : Option (Coord × List Coord) :=
  match minFCoord s s.openList with
  | none => none
  | some m => some (m, s.openList.erase m)

/-- `GridMap::close_front_open_node()`: `remove_front` the open list, set the
popped record's `state_ = closed`, increment `stats_.nodes_closed`, and
return the popped cell's coordinate `c_`. -/
def close_front_open_node (s : GridMapState) : Option (Coord × GridMapState) :=
  match removeFront s with
  | none => none
  | some (m, l) =>
    some (m,
      { nodes := updateNode s.nodes m { s.nodes m with state := NodeState.closed }
        openList := l
        stats := { s.stats with nodes_closed := s.stats.nodes_closed + 1 } })

/-- Set only the `state_` field of cell `c`'s record. -/
def setState (s : GridMapState) (c : Coord) (st : NodeState) : GridMapState :=
  { s with nodes := updateNode s.nodes c { s.nodes c with state := st } }

/-- The parent link read by `get_path`: `node(c)->parent_->c_`. -/
def parCoord (s : GridMapState) (c : Coord) : Coord :=
  (s.nodes c).parent

/-- The `while` loop of `GridMap::get_path`, with explicit fuel modelling the
unbounded iteration: while `node(p)->parent_->c_ != p`, push `p` onto the
path, set `node(p)->state_ = result`, and move `p` to its parent.  Returns
the collected path, the mutated state, and the final `p`. -/
def getPathGo (s : GridMapState) : ℕ → Coord → List Coord × GridMapState × Coord
  | 0, p => ([], s, p)
  | fuel + 1, p =>
    if parCoord s p = p then ([], s, p)
    else
      let r := getPathGo (setState s p NodeState.result) fuel (parCoord s p)
      (p :: r.1, r.2)

/-- `GridMap::get_path(n)`: run the parent-walk loop, then set
`node(n)->state_ = goal` and `node(p)->state_ = start` (in that order, so a
cell that is both start and goal ends as `start`), and return the path. -/
def get_path (s : GridMapState) (n : Coord) (fuel : ℕ) :
    List Coord × GridMapState :=
  let r := getPathGo s fuel n
  (r.1, setState (setState r.2.1 n NodeState.goal) r.2.2 NodeState.start)

/-- The pure parent chain collected by the `get_path` loop: the coordinates
visited strictly before the first self-parenting cell. -/
def chain (par : Coord → Coord) : ℕ → Coord → List Coord
  | 0, _ => []
  | fuel + 1, p => if par p = p then [] else p :: chain par fuel (par p)

/-- The cell at which the `get_path` loop stops (the start cell, when the
chain reaches a self-parenting fixed point within the fuel). -/
def chainEnd (par : Coord → Coord) : ℕ → Coord → Coord
  | 0, p => p
  | fuel + 1, p => if par p = p then p else chainEnd par fuel (par p)

/-- `k`-fold iteration of the parent link. -/
def iterPar (par : Coord → Coord) : ℕ → Coord → Coord
  | 0, p => p
  | k + 1, p => iterPar par k (par p)

/-- The parent chain from `p` reaches a self-parenting cell within `k`
steps. -/
def reachesFix (par : Coord → Coord) (k : ℕ) (p : Coord) : Prop :=
  par (iterPar par k p) = iterPar par k p

instance (par : Coord → Coord) (k : ℕ) (p : Coord) :
    Decidable (reachesFix par k p) :=
  inferInstanceAs (Decidable (par (iterPar par k p) = iterPar par k p))

/-- Mark every cell of `l` with state `result`, in order (the cumulative
state mutation of the `get_path` loop). -/
def markResults (s : GridMapState) : List Coord → GridMapState
  | [] => s
  | c :: l => markResults (setState s c NodeState.result) l

/-- Chebyshev distance between two coordinates (grid adjacency is Chebyshev
distance exactly `1`). -/
def chebyshev (a b : Coord) : ℤ :=
  max |b.1 - a.1| |b.2 - a.2|

/-- Modelled from the spec: `grid_node_array.h` is not in the source tree.
All records are allocated eagerly with `state = unexplored` (§3); the initial
`g`/`f`/parent contents are never read before being set and are fixed here as
`0`/`0`/self.  The open list starts empty and all counters at zero. -/
def initState : GridMapState :=
  { nodes := fun c =>
      { state := NodeState.unexplored, g := 0, f := 0, parent := c }
    openList := []
    stats := { nodes_opened := 0, nodes_reopened := 0, nodes_closed := 0,
               nodes_priority_increased := 0 } }

/-- One frontier-management call of the contract surface (§4.4): the three
state-machine mutators and `close_front_open_node`. -/
inductive SearchOp where
  | doOpen (n : Coord) (g h : ℚ) (p : Coord)
  | doReopen (n : Coord) (g h : ℚ) (p : Coord)
  | doIncrease (n : Coord) (g h : ℚ) (p : Coord)
  | doClose
deriving DecidableEq, Repr

/-- The state-machine precondition of each call (§4.3): `open` on an
unexplored cell, `reopen` on a closed cell, `increase_priority` on an open
cell, `close_front` on a nonempty open list. -/
def precondOp (s : GridMapState) : SearchOp → Prop
  | SearchOp.doOpen n _ _ _ => (s.nodes n).state = NodeState.unexplored
  | SearchOp.doReopen n _ _ _ => (s.nodes n).state = NodeState.closed
  | SearchOp.doIncrease n _ _ _ => (s.nodes n).state = NodeState.open
  | SearchOp.doClose => s.openList ≠ []

instance (s : GridMapState) (op : SearchOp) : Decidable (precondOp s op) :=
  match op with
  | SearchOp.doOpen n _ _ _ =>
    inferInstanceAs (Decidable ((s.nodes n).state = NodeState.unexplored))
  | SearchOp.doReopen n _ _ _ =>
    inferInstanceAs (Decidable ((s.nodes n).state = NodeState.closed))
  | SearchOp.doIncrease n _ _ _ =>
    inferInstanceAs (Decidable ((s.nodes n).state = NodeState.open))
  | SearchOp.doClose => inferInstanceAs (Decidable (s.openList ≠ []))

/-- Execute one call.  `close_front_open_node` on an empty list errors in the
source; under `precondOp` that branch is unreachable and the no-op value
below is never used. -/
def applyOp (s : GridMapState) : SearchOp → GridMapState
  | SearchOp.doOpen n g h p => open_node s n g h p
  | SearchOp.doReopen n g h p => reopen_node s n g h p
  | SearchOp.doIncrease n g h p => increase_node_priority s n g h p
  | SearchOp.doClose =>
    match close_front_open_node s with
    | none => s
    | some r => r.2

/-- Run a sequence of calls from `s`. -/
def runOps (s : GridMapState) : List SearchOp → GridMapState
  | [] => s
  | op :: ops => runOps (applyOp s op) ops

/-- Every call of the sequence satisfies its state-machine precondition in
the state where it executes. -/
def ValidTrace (s : GridMapState) : List SearchOp → Prop
  | [] => True
  | op :: ops => precondOp s op ∧ ValidTrace (applyOp s op) ops

instance instDecidableValidTrace (s : GridMapState) (ops : List SearchOp) :
    Decidable (ValidTrace s ops) :=
  match ops with
  | [] => Decidable.isTrue trivial
  | op :: ops =>
    @instDecidableAnd _ _ _ (instDecidableValidTrace (applyOp s op) ops)

/-- The open-list/state-machine invariant: every cell whose state is `open`
has exactly one live entry in the open list, and every other cell has
none. -/
def OpenInv (s : GridMapState) : Prop :=
  ∀ c : Coord,
    s.openList.count c = if (s.nodes c).state = NodeState.open then 1 else 0

/-- Spec-side step weight, following the spec's words for the refinement
statement about `edges`: the constant straight-move weight for axis-aligned
steps and the constant diagonal weight for diagonal steps (a step is
diagonal when both coordinates change). -/
def stepWeightSpec (a b : Coord) : ℚ :=
  if a.1 ≠ b.1 ∧ a.2 ≠ b.2 then kDiagonalEdgeWeight else kStraightEdgeWeight

/-- The concrete scenario of C7: cell `(0,0)` opened with `g = 5`. -/
def c7s1 : GridMapState := open_node initState (0, 0) 5 0 (0, 0)

/-- C7 scenario, after `close_front_open_node` pops `(0,0)`. -/
def c7s2 : GridMapState := applyOp c7s1 SearchOp.doClose

/-- C7 scenario, after reopening `(0,0)` with `g = 3`. -/
def c7s3 : GridMapState := reopen_node c7s2 (0, 0) 3 0 (0, 0)

/-- The concrete scenario of C5: cell `(0,0)` opened (so it is `open`, not
`closed`). -/
def c5s1 : GridMapState := open_node initState (0, 0) 1 0 (0, 0)

/-- C5 scenario: `reopen_node` called on the open (hence non-closed) cell
`(0,0)`, violating the stated precondition. -/
def c5s2 : GridMapState := reopen_node c5s1 (0, 0) 1 0 (0, 0)

/-- C5 scenario: `increase_node_priority` called on an unexplored (hence
non-open) cell, violating the stated precondition. -/
def c5s3 : GridMapState := increase_node_priority initState (0, 0) 2 0 (0, 0)

/-- The concrete scenario of C1: the driver opens start `(0,0)` parented to
itself, then `(2,2)` parented to `(0,0)`, then `(4,4)` parented to `(2,2)`
(the grid map places no constraint on the parents passed by the driver). -/
def c1s : GridMapState :=
  open_node (open_node (open_node initState (0, 0) 0 0 (0, 0))
    (2, 2) 1 1 (0, 0)) (4, 4) 2 2 (2, 2)

/-! ## Basic helper lemmas -/

theorem updateNode_same (f : Coord → GridNode) (n : Coord) (v : GridNode) :
    updateNode f n v n = v := by
  simp [updateNode]

theorem updateNode_other (f : Coord → GridNode) (n c : Coord) (v : GridNode)
    (h : c ≠ n) : updateNode f n v c = f c := by
  simp [updateNode, h]

theorem edgeManhattan_offset (c : Coord) (d : ℤ × ℤ) :
    edgeManhattan c (c.1 + d.1, c.2 + d.2) = |d.2| + |d.1| := by
  simp only [edgeManhattan, x, y]
  rw [show c.2 + d.2 - c.2 = d.2 by ring, show c.1 + d.1 - c.1 = d.1 by ring]

theorem stepWeightSpec_cond (c : Coord) (d : ℤ × ℤ) :
    (c.1 ≠ c.1 + d.1 ∧ c.2 ≠ c.2 + d.2) ↔ (d.1 ≠ 0 ∧ d.2 ≠ 0) := by
  constructor <;> intro h <;> exact ⟨by omega, by omega⟩

/-! ## C4 — edge-weight constants -/

/-- C4 (counterexample): the claim says the diagonal step-weight constant
equals √2 scaled to the cost type, approximately `1.41421`.  In the source it
is the literal `1.4143`: its distance to `1.41421` is `9·10⁻⁵` (so it does
not agree with `1.41421` even at the five printed decimals), and its square
exceeds `2` by more than `2·10⁻⁴`, far beyond `double` precision, so it is
not √2 at the cost type's precision. -/
theorem kDiagonalEdgeWeight_not_sqrt2 :
    kDiagonalEdgeWeight = 14143 / 10000 ∧
    |kDiagonalEdgeWeight - 141421 / 100000| = 9 / 100000 ∧
    2 + 2 / 10000 < kDiagonalEdgeWeight ^ 2 := by
  refine ⟨rfl, ?_, by norm_num [kDiagonalEdgeWeight]⟩
  rw [show kDiagonalEdgeWeight - 141421 / 100000 = 9 / 100000 by
    norm_num [kDiagonalEdgeWeight]]
  norm_num

/-- C4 (amended): the diagonal step-weight constant is the literal `1.4143`,
a truncated approximation of √2 accurate to within `10⁻⁴` (√2 lies strictly
between `1.4142` and `1.4143`) but not equal to √2 at the cost type's
precision; the straight-move step weight is exactly `1.0`. -/
theorem kEdgeWeight_values :
    kDiagonalEdgeWeight = 14143 / 10000 ∧
    kStraightEdgeWeight = 1 ∧
    ((14142 : ℚ) / 10000) ^ 2 < 2 ∧
    2 < kDiagonalEdgeWeight ^ 2 ∧
    kDiagonalEdgeWeight ^ 2 < 2 + 3 / 10000 := by
  refine ⟨rfl, rfl, by norm_num, by norm_num [kDiagonalEdgeWeight],
    by norm_num [kDiagonalEdgeWeight]⟩

/-! ## C6 — postcondition of `open_node` -/

/-- C6: after `open_node(n, g, h, p)` on an unexplored cell, the record of
`n` holds `g`, `f = g + h`, parent `p` and state `open`; `n` has been pushed
onto the open list; and `nodes_opened` increased by exactly 1 (all other
counters and all other cells' records unchanged). -/
theorem open_node_postcondition (s : GridMapState) (n : Coord) (g h : ℚ)
    (p : Coord) (_hn : node_unexplored s n) :
    ((open_node s n g h p).nodes n).g = g ∧
    ((open_node s n g h p).nodes n).f = g + h ∧
    ((open_node s n g h p).nodes n).parent = p ∧
    ((open_node s n g h p).nodes n).state = NodeState.open ∧
    (open_node s n g h p).openList = s.openList ++ [n] ∧
    (open_node s n g h p).stats.nodes_opened = s.stats.nodes_opened + 1 ∧
    (open_node s n g h p).stats.nodes_reopened = s.stats.nodes_reopened ∧
    (open_node s n g h p).stats.nodes_closed = s.stats.nodes_closed ∧
    (open_node s n g h p).stats.nodes_priority_increased =
      s.stats.nodes_priority_increased ∧
    ∀ c : Coord, c ≠ n → (open_node s n g h p).nodes c = s.nodes c := by
  refine ⟨by simp [open_node, updateNode], by simp [open_node, updateNode],
    by simp [open_node, updateNode], by simp [open_node, updateNode],
    rfl, rfl, rfl, rfl, rfl, ?_⟩
  intro c hc
  simp [open_node, updateNode, hc]

/-- Witness for C6 at a concrete input. -/
theorem open_node_postcondition_witness :
    node_unexplored initState (0, 0) ∧
    (((open_node initState (0, 0) 1 2 (3, 4)).nodes (0, 0)).g = 1 ∧
     ((open_node initState (0, 0) 1 2 (3, 4)).nodes (0, 0)).f = 1 + 2 ∧
     ((open_node initState (0, 0) 1 2 (3, 4)).nodes (0, 0)).parent = (3, 4) ∧
     ((open_node initState (0, 0) 1 2 (3, 4)).nodes (0, 0)).state =
       NodeState.open ∧
     (open_node initState (0, 0) 1 2 (3, 4)).openList =
       initState.openList ++ [(0, 0)] ∧
     (open_node initState (0, 0) 1 2 (3, 4)).stats.nodes_opened =
       initState.stats.nodes_opened + 1 ∧
     (open_node initState (0, 0) 1 2 (3, 4)).stats.nodes_reopened =
       initState.stats.nodes_reopened ∧
     (open_node initState (0, 0) 1 2 (3, 4)).stats.nodes_closed =
       initState.stats.nodes_closed ∧
     (open_node initState (0, 0) 1 2 (3, 4)).stats.nodes_priority_increased =
       initState.stats.nodes_priority_increased ∧
     ∀ c : Coord, c ≠ (0, 0) →
       (open_node initState (0, 0) 1 2 (3, 4)).nodes c = initState.nodes c) :=
  ⟨rfl, open_node_postcondition initState (0, 0) 1 2 (3, 4) rfl⟩

/-! ## C10 — `open_node` vs `reopen_node` -/

/-- C10: `open_node` and `reopen_node` perform identical updates to the node
record (parent, `g`, `f = g + h`, state `open`) and to the open list (one
insertion), and differ only in which counter they increment
(`nodes_opened` versus `nodes_reopened`). -/
theorem open_reopen_differ_only_in_counter (s : GridMapState) (n : Coord)
    (g h : ℚ) (p : Coord) :
    (open_node s n g h p).nodes = (reopen_node s n g h p).nodes ∧
    (open_node s n g h p).openList = (reopen_node s n g h p).openList ∧
    (open_node s n g h p).nodes n =
      { state := NodeState.open, g := g, f := g + h, parent := p } ∧
    (open_node s n g h p).stats =
      { s.stats with nodes_opened := s.stats.nodes_opened + 1 } ∧
    (reopen_node s n g h p).stats =
      { s.stats with nodes_reopened := s.stats.nodes_reopened + 1 } := by
  exact ⟨rfl, rfl, by simp [open_node, updateNode], rfl, rfl⟩

/-! ## C7 — open / close / reopen scenario -/

/-- C7: opening cell `(0,0)` with `g = 5`, closing it, then reopening it with
`g = 3` transitions it `open → closed → open`, updates its stored `g` to `3`,
increments `nodes_reopened` by exactly 1, and leaves `nodes_opened` unchanged
by the reopen call. -/
theorem reopen_scenario :
    (close_front_open_node c7s1).map Prod.fst = some (0, 0) ∧
    (c7s1.nodes (0, 0)).state = NodeState.open ∧
    (c7s1.nodes (0, 0)).g = 5 ∧
    (c7s2.nodes (0, 0)).state = NodeState.closed ∧
    (c7s3.nodes (0, 0)).state = NodeState.open ∧
    (c7s3.nodes (0, 0)).g = 3 ∧
    c7s3.stats.nodes_reopened = c7s2.stats.nodes_reopened + 1 ∧
    c7s2.stats.nodes_reopened = 0 ∧
    c7s3.stats.nodes_opened = c7s2.stats.nodes_opened ∧
    c7s2.stats.nodes_opened = 1 := by
  decide

/-! ## C9 — heuristic distance functions -/

/-- C9: `manhattan_distance` equals `|Δx| + |Δy|`; `diagonal_distance` equals
`diagonal_weight · min(|Δx|,|Δy|) + straight_weight · (max(|Δx|,|Δy|) −
min(|Δx|,|Δy|))` with the same constants as the step weights of `edges`; and
`duclidean_distance` equals `√(Δx² + Δy²)` (the square root idealised at real
precision, the code computing with `double`). -/
theorem distance_functions_spec (n0 n1 : Coord) :
    manhattan_distance n0 n1 =
      |(n1.1 : ℚ) - (n0.1 : ℚ)| + |(n1.2 : ℚ) - (n0.2 : ℚ)| ∧
    diagonal_distance n0 n1 =
      kDiagonalEdgeWeight *
        min |(n1.1 : ℚ) - (n0.1 : ℚ)| |(n1.2 : ℚ) - (n0.2 : ℚ)| +
      kStraightEdgeWeight *
        (max |(n1.1 : ℚ) - (n0.1 : ℚ)| |(n1.2 : ℚ) - (n0.2 : ℚ)| -
         min |(n1.1 : ℚ) - (n0.1 : ℚ)| |(n1.2 : ℚ) - (n0.2 : ℚ)|) ∧
    duclidean_distance n0 n1 =
      Real.sqrt (((n1.1 : ℝ) - (n0.1 : ℝ)) ^ 2 + ((n1.2 : ℝ) - (n0.2 : ℝ)) ^ 2) ∧
    duclidean_distance n0 n1 ^ 2 =
      ((n1.1 : ℝ) - (n0.1 : ℝ)) ^ 2 + ((n1.2 : ℝ) - (n0.2 : ℝ)) ^ 2 ∧
    0 ≤ duclidean_distance n0 n1 := by
  have hsqrt : duclidean_distance n0 n1 =
      Real.sqrt (((n1.1 : ℝ) - (n0.1 : ℝ)) ^ 2 + ((n1.2 : ℝ) - (n0.2 : ℝ)) ^ 2) := by
    unfold duclidean_distance duclidean_radicand x y
    congr 1
    push_cast
    rw [abs_mul_abs_self, abs_mul_abs_self]
    ring
  refine ⟨?_, ?_, hsqrt, ?_, ?_⟩
  · unfold manhattan_distance x y
    push_cast
    ring
  · unfold diagonal_distance x y
    push_cast
    ring
  · rw [hsqrt, Real.sq_sqrt (by positivity)]
  · exact Real.sqrt_nonneg _

/-! ## C8 / C3 — neighbor generation and edge weights -/

theorem neighbor_offset_form (c c' : Coord)
    (h : c' ∈ coord_8_neighbors c ∨ c' ∈ coord_4_neighbors c) :
    ∃ d ∈ coord_8_offsets ++ coord_4_offsets, c' = (c.1 + d.1, c.2 + d.2) := by
  rcases h with h | h
  · simp only [coord_8_neighbors, List.mem_map] at h
    obtain ⟨d, hd, hc⟩ := h
    exact ⟨d, by simp [hd], hc.symm⟩
  · simp only [coord_4_neighbors, List.mem_map] at h
    obtain ⟨d, hd, hc⟩ := h
    exact ⟨d, by simp [hd], hc.symm⟩

theorem neighbor_edgeManhattan (c c' : Coord)
    (h : c' ∈ coord_8_neighbors c ∨ c' ∈ coord_4_neighbors c) :
    (edgeManhattan c c' = 1 ∧ stepWeightSpec c c' = kStraightEdgeWeight) ∨
    (edgeManhattan c c' = 2 ∧ stepWeightSpec c c' = kDiagonalEdgeWeight) := by
  obtain ⟨d, hd, rfl⟩ := neighbor_offset_form c c' h
  rw [edgeManhattan_offset]
  fin_cases hd <;> simp [stepWeightSpec, self_eq_add_right]

/-- C8: every pair produced by the neighbor generators is at Manhattan
distance exactly 1 or exactly 2, `edge_weight` returns the straight weight at
distance 1 and the diagonal weight at distance 2, and its `assert(0)` branch
is unreachable on such pairs. -/
theorem neighbor_edge_weight_total (c c' : Coord)
    (h : c' ∈ coord_8_neighbors c ∨ c' ∈ coord_4_neighbors c) :
    (edgeManhattan c c' = 1 ∨ edgeManhattan c c' = 2) ∧
    edge_weight_assert_reached c c' = false ∧
    (edgeManhattan c c' = 1 → edge_weight c c' = kStraightEdgeWeight) ∧
    (edgeManhattan c c' = 2 → edge_weight c c' = kDiagonalEdgeWeight) := by
  rcases neighbor_edgeManhattan c c' h with ⟨h1, _⟩ | ⟨h2, _⟩
  · refine ⟨Or.inl h1, ?_, fun _ => ?_, fun hx => ?_⟩
    · simp [edge_weight_assert_reached, h1]
    · simp [edge_weight, h1]
    · rw [h1] at hx; exact absurd hx (by norm_num)
  · refine ⟨Or.inr h2, ?_, fun hx => ?_, fun _ => ?_⟩
    · simp [edge_weight_assert_reached, h2]
    · rw [h2] at hx; exact absurd hx (by norm_num)
    · simp [edge_weight, h2]

/-- Witness for C8 at the concrete pair `(0,0)`, `(1,1)`. -/
theorem neighbor_edge_weight_total_witness :
    ((1, 1) ∈ coord_8_neighbors (0, 0) ∨ (1, 1) ∈ coord_4_neighbors (0, 0)) ∧
    ((edgeManhattan (0, 0) (1, 1) = 1 ∨ edgeManhattan (0, 0) (1, 1) = 2) ∧
     edge_weight_assert_reached (0, 0) (1, 1) = false ∧
     (edgeManhattan (0, 0) (1, 1) = 1 →
       edge_weight (0, 0) (1, 1) = kStraightEdgeWeight) ∧
     (edgeManhattan (0, 0) (1, 1) = 2 →
       edge_weight (0, 0) (1, 1) = kDiagonalEdgeWeight)) :=
  ⟨Or.inl (by decide),
   neighbor_edge_weight_total (0, 0) (1, 1) (Or.inl (by decide))⟩

/-- C3: `edges(n)` enumerates the 8 neighbors when diagonal movement is
enabled and the 4 axis-aligned neighbors otherwise, keeps exactly the
neighbors passing `is_passable`, and each kept neighbor `c` yields the edge
`(n, c, terrain_weight(c) · step_weight(n, c))` with the straight step weight
on axis-aligned moves and the diagonal step weight on diagonal moves. -/
theorem edges_spec (cfg : GridMapCfg) (n : Coord) :
    edges cfg n =
      ((if cfg.enable_diagonal then coord_8_neighbors n
        else coord_4_neighbors n).filter fun c => cfg.vm.is_passable c).map
        fun c => (n, c, cfg.vm.weight c * stepWeightSpec n c) := by
  unfold edges
  apply List.map_congr_left
  intro c hc
  have hcm : c ∈ (if cfg.enable_diagonal then coord_8_neighbors n
      else coord_4_neighbors n) := (List.mem_filter.mp hc).1
  have hnb : c ∈ coord_8_neighbors n ∨ c ∈ coord_4_neighbors n := by
    by_cases hdiag : cfg.enable_diagonal
    · rw [if_pos hdiag] at hcm; exact Or.inl hcm
    · rw [if_neg hdiag] at hcm; exact Or.inr hcm
  rcases neighbor_edgeManhattan n c hnb with ⟨h1, hs⟩ | ⟨h2, hs⟩
  · simp [edge_cost, edge_weight, h1, hs]
  · simp [edge_cost, edge_weight, h2, hs]

/-! ## C5 — precondition violations are not checked -/

/-- C5 (counterexample): calling `reopen_node` on a cell that is `open` (not
`closed`) and `increase_node_priority` on a cell that is `unexplored` (not
`open`) is not reported as any error condition: the source contains no state
check, the calls complete with their normal effects (counters incremented,
record updated), and the violating reopen leaves a duplicate live entry for
the cell in the open list. -/
theorem precondition_violation_not_reported :
    (c5s1.nodes (0, 0)).state = NodeState.open ∧
    (c5s1.nodes (0, 0)).state ≠ NodeState.closed ∧
    c5s2.openList.count (0, 0) = 2 ∧
    (c5s2.nodes (0, 0)).state = NodeState.open ∧
    c5s2.stats.nodes_reopened = 1 ∧
    (initState.nodes (0, 0)).state ≠ NodeState.open ∧
    c5s3.stats.nodes_priority_increased = 1 ∧
    (c5s3.nodes (0, 0)).g = 2 ∧
    (c5s3.nodes (0, 0)).state = NodeState.unexplored := by
  decide

/-- C5 (amended): `reopen_node` and `increase_node_priority` perform no state
validation.  Called on a cell violating the precondition they silently
execute the normal update path: `reopen_node` on a non-closed cell behaves
exactly as if the cell had been closed (inserting a fresh open-list entry —
a duplicate if the cell was open), and `increase_node_priority` on a
non-open cell updates `parent`, `g` and `f` and bumps the counter, leaving
the cell's state as it was. -/
theorem precondition_violations_silent (s : GridMapState) (n : Coord)
    (g h : ℚ) (p : Coord)
    (_hr : (s.nodes n).state ≠ NodeState.closed)
    (_hi : (s.nodes n).state ≠ NodeState.open) :
    reopen_node s n g h p =
      reopen_node (setState s n NodeState.closed) n g h p ∧
    (reopen_node s n g h p).openList = s.openList ++ [n] ∧
    (reopen_node s n g h p).stats.nodes_reopened =
      s.stats.nodes_reopened + 1 ∧
    ((increase_node_priority s n g h p).nodes n).state = (s.nodes n).state ∧
    ((increase_node_priority s n g h p).nodes n).g = g ∧
    ((increase_node_priority s n g h p).nodes n).f = g + h ∧
    ((increase_node_priority s n g h p).nodes n).parent = p ∧
    (increase_node_priority s n g h p).openList = s.openList ∧
    (increase_node_priority s n g h p).stats.nodes_priority_increased =
      s.stats.nodes_priority_increased + 1 := by
  refine ⟨?_, rfl, rfl, ?_, ?_, ?_, ?_, rfl, rfl⟩
  · unfold reopen_node setState
    congr 1
    funext c
    by_cases hc : c = n <;> simp [updateNode, hc]
  all_goals simp [increase_node_priority, updateNode]

/-- Witness for the amended C5 at a concrete input. -/
theorem precondition_violations_silent_witness :
    ((initState.nodes (1, 1)).state ≠ NodeState.closed ∧
     (initState.nodes (1, 1)).state ≠ NodeState.open) ∧
    (reopen_node initState (1, 1) 4 1 (0, 1) =
       reopen_node (setState initState (1, 1) NodeState.closed) (1, 1) 4 1 (0, 1) ∧
     (reopen_node initState (1, 1) 4 1 (0, 1)).openList =
       initState.openList ++ [(1, 1)] ∧
     (reopen_node initState (1, 1) 4 1 (0, 1)).stats.nodes_reopened =
       initState.stats.nodes_reopened + 1 ∧
     ((increase_node_priority initState (1, 1) 4 1 (0, 1)).nodes (1, 1)).state =
       (initState.nodes (1, 1)).state ∧
     ((increase_node_priority initState (1, 1) 4 1 (0, 1)).nodes (1, 1)).g = 4 ∧
     ((increase_node_priority initState (1, 1) 4 1 (0, 1)).nodes (1, 1)).f = 4 + 1 ∧
     ((increase_node_priority initState (1, 1) 4 1 (0, 1)).nodes (1, 1)).parent =
       (0, 1) ∧
     (increase_node_priority initState (1, 1) 4 1 (0, 1)).openList =
       initState.openList ∧
     (increase_node_priority initState (1, 1) 4 1 (0, 1)).stats.nodes_priority_increased =
       initState.stats.nodes_priority_increased + 1) :=
  ⟨⟨by decide, by decide⟩,
   precondition_violations_silent initState (1, 1) 4 1 (0, 1)
     (by decide) (by decide)⟩

/-! ## C2 — open-list / state-machine invariant -/

theorem minFCoord_mem (s : GridMapState) :
    ∀ (l : List Coord) (m : Coord), minFCoord s l = some m → m ∈ l := by
  intro l
  induction l with
  | nil => intro m hm; simp [minFCoord] at hm
  | cons c l ih =>
    intro m hm
    unfold minFCoord at hm
    cases hml : minFCoord s l with
    | none => rw [hml] at hm; simp at hm; simp [hm]
    | some m' =>
      rw [hml] at hm
      simp at hm
      by_cases hle : (s.nodes c).f ≤ (s.nodes m').f
      · rw [if_pos hle] at hm; simp [← hm]
      · rw [if_neg hle] at hm
        exact List.mem_cons_of_mem c (hm ▸ ih m' hml)

theorem minFCoord_ne_none (s : GridMapState) (e : Coord) (l : List Coord) :
    minFCoord s (e :: l) ≠ none := by
  unfold minFCoord
  cases minFCoord s l <;> simp

theorem minFCoord_min (s : GridMapState) :
    ∀ (l : List Coord) (m : Coord), minFCoord s l = some m →
      ∀ c ∈ l, (s.nodes m).f ≤ (s.nodes c).f := by
  intro l
  induction l with
  | nil => intro m hm; simp [minFCoord] at hm
  | cons c l ih =>
    intro m hm d hd
    unfold minFCoord at hm
    cases hml : minFCoord s l with
    | none =>
      rw [hml] at hm
      simp at hm
      cases l with
      | nil =>
        have hdc : d = c := List.mem_singleton.mp hd
        subst hdc
        rw [hm]
      | cons e l' => exact absurd hml (minFCoord_ne_none s e l')
    | some m' =>
      rw [hml] at hm
      simp at hm
      rcases List.mem_cons.mp hd with rfl | hd'
      · by_cases hle : (s.nodes d).f ≤ (s.nodes m').f
        · rw [if_pos hle] at hm; rw [hm]
        · rw [if_neg hle] at hm; rw [← hm]; exact le_of_not_le hle
      · by_cases hle : (s.nodes c).f ≤ (s.nodes m').f
        · rw [if_pos hle] at hm
          rw [← hm]
          exact hle.trans (ih m' hml d hd')
        · rw [if_neg hle] at hm; rw [← hm]; exact ih m' hml d hd'

theorem minFCoord_isSome (s : GridMapState) (l : List Coord) (h : l ≠ []) :
    ∃ m, minFCoord s l = some m := by
  cases l with
  | nil => exact absurd rfl h
  | cons c l =>
    unfold minFCoord
    cases minFCoord s l with
    | none => exact ⟨c, rfl⟩
    | some m' => exact ⟨_, rfl⟩

theorem close_front_spec (s : GridMapState) (h : s.openList ≠ []) :
    ∃ m s2, close_front_open_node s = some (m, s2) ∧
      m ∈ s.openList ∧
      (∀ c ∈ s.openList, (s.nodes m).f ≤ (s.nodes c).f) ∧
      s2.nodes = updateNode s.nodes m
        { s.nodes m with state := NodeState.closed } ∧
      s2.openList = s.openList.erase m ∧
      s2.stats = { s.stats with nodes_closed := s.stats.nodes_closed + 1 } := by
  obtain ⟨m, hm⟩ := minFCoord_isSome s s.openList h
  refine ⟨m,
    { nodes := updateNode s.nodes m { s.nodes m with state := NodeState.closed }
      openList := s.openList.erase m
      stats := { s.stats with nodes_closed := s.stats.nodes_closed + 1 } },
    ?_, minFCoord_mem s _ m hm, minFCoord_min s _ m hm, rfl, rfl, rfl⟩
  unfold close_front_open_node removeFront
  rw [hm]

theorem openInv_insert (s : GridMapState) (n : Coord) (v : GridNode)
    (hv : v.state = NodeState.open)
    (hst : (s.nodes n).state ≠ NodeState.open)
    (hinv : OpenInv s) (st : SearchStats) :
    OpenInv { nodes := updateNode s.nodes n v,
              openList := s.openList ++ [n], stats := st } := by
  intro c
  by_cases hcn : c = n
  · subst hcn
    have h0 : s.openList.count c = 0 := by rw [hinv c, if_neg hst]
    simp [List.count_append, updateNode_same, h0, hv]
  · have h1 : List.count c [n] = 0 := List.count_eq_zero.mpr (by simp [hcn])
    simp only [List.count_append, updateNode_other _ _ _ _ hcn, h1,
      Nat.add_zero]
    exact hinv c

theorem applyOp_inv (s : GridMapState) (op : SearchOp)
    (hpre : precondOp s op) (hinv : OpenInv s) : OpenInv (applyOp s op) := by
  cases op with
  | doOpen n g h p =>
    have hst : (s.nodes n).state ≠ NodeState.open := by
      rw [hpre]; intro hx; cases hx
    exact openInv_insert s n _ rfl hst hinv _
  | doReopen n g h p =>
    have hst : (s.nodes n).state ≠ NodeState.open := by
      rw [hpre]; intro hx; cases hx
    exact openInv_insert s n _ rfl hst hinv _
  | doIncrease n g h p =>
    intro c
    by_cases hcn : c = n
    · subst hcn
      simp only [applyOp, increase_node_priority, updateNode_same]
      exact hinv c
    · simp only [applyOp, increase_node_priority,
        updateNode_other _ _ _ _ hcn]
      exact hinv c
  | doClose =>
    obtain ⟨m, s2, hcf, hmem, _hmin, hnodes, hlist, _hstats⟩ :=
      close_front_spec s hpre
    have happ : applyOp s SearchOp.doClose = s2 := by simp [applyOp, hcf]
    rw [happ]
    have hopen : (s.nodes m).state = NodeState.open := by
      have hpos : 0 < s.openList.count m := List.count_pos_iff.mpr hmem
      by_contra hno
      rw [hinv m, if_neg hno] at hpos
      exact lt_irrefl 0 hpos
    have hone : s.openList.count m = 1 := by rw [hinv m, if_pos hopen]
    intro c
    by_cases hcm : c = m
    · subst hcm
      rw [hlist, hnodes, updateNode_same, List.count_erase_self, hone]
      simp
    · rw [hlist, hnodes, updateNode_other _ _ _ _ hcm,
        List.count_erase_of_ne hcm]
      exact hinv c

theorem initState_inv : OpenInv initState := by
  intro c
  rfl

theorem runOps_take_inv (ops : List SearchOp) :
    ∀ s, OpenInv s → ValidTrace s ops → ∀ k,
      OpenInv (runOps s (ops.take k)) := by
  induction ops with
  | nil =>
    intro s hs _ k
    simpa [runOps] using hs
  | cons op ops ih =>
    intro s hs hv k
    obtain ⟨hp, hv2⟩ := hv
    cases k with
    | zero => simpa [runOps] using hs
    | succ k =>
      simp only [List.take_succ_cons, runOps]
      exact ih (applyOp s op) (applyOp_inv s op hp hs) hv2 k

theorem validTrace_precond_at (ops : List SearchOp) :
    ∀ s, ValidTrace s ops → ∀ k (hk : k < ops.length),
      precondOp (runOps s (ops.take k)) (ops.get ⟨k, hk⟩) := by
  induction ops with
  | nil =>
    intro s _ k hk
    simp at hk
  | cons op ops ih =>
    intro s hv k hk
    obtain ⟨hp, hv2⟩ := hv
    cases k with
    | zero => simpa [runOps] using hp
    | succ k =>
      simp only [List.take_succ_cons, runOps, List.get]
      exact ih (applyOp s op) hv2 k (Nat.lt_of_succ_lt_succ hk)

/-- C2: along any sequence of `open_node` / `reopen_node` /
`increase_node_priority` / `close_front_open_node` calls that respects the
state-machine preconditions, at every point exactly the cells whose state is
`open` are in the open list, each with exactly one live entry; and wherever
a `close_front_open_node` call occurs it removes and returns a cell whose
`f` is minimal in the open list at that point (its only live entry is
removed, all other cells' entry counts are untouched). -/
theorem open_list_invariant_and_min_pop (ops : List SearchOp)
    (hv : ValidTrace initState ops) :
    (∀ k, OpenInv (runOps initState (ops.take k))) ∧
    (∀ k (hk : k < ops.length), ops.get ⟨k, hk⟩ = SearchOp.doClose →
      ∃ m s2,
        close_front_open_node (runOps initState (ops.take k)) = some (m, s2) ∧
        m ∈ (runOps initState (ops.take k)).openList ∧
        (∀ c ∈ (runOps initState (ops.take k)).openList,
          ((runOps initState (ops.take k)).nodes m).f ≤
            ((runOps initState (ops.take k)).nodes c).f) ∧
        (runOps initState (ops.take k)).openList.count m = 1 ∧
        s2.openList.count m = 0 ∧
        (∀ c : Coord, c ≠ m → s2.openList.count c =
          (runOps initState (ops.take k)).openList.count c)) := by
  have hinv : ∀ k, OpenInv (runOps initState (ops.take k)) :=
    runOps_take_inv ops initState initState_inv hv
  refine ⟨hinv, fun k hk hcl => ?_⟩
  have hpre := validTrace_precond_at ops initState hv k hk
  rw [hcl] at hpre
  obtain ⟨m, s2, hcf, hmem, hmin, _hnodes, hlist, _hstats⟩ :=
    close_front_spec (runOps initState (ops.take k)) hpre
  have hopen : ((runOps initState (ops.take k)).nodes m).state =
      NodeState.open := by
    have hpos : 0 < (runOps initState (ops.take k)).openList.count m :=
      List.count_pos_iff.mpr hmem
    by_contra hno
    rw [hinv k m, if_neg hno] at hpos
    exact lt_irrefl 0 hpos
  have hone : (runOps initState (ops.take k)).openList.count m = 1 := by
    rw [hinv k m, if_pos hopen]
  refine ⟨m, s2, hcf, hmem, hmin, hone, ?_, fun c hc => ?_⟩
  · rw [hlist, List.count_erase_self, hone]
  · rw [hlist, List.count_erase_of_ne hc]

/-- Witness for C2 on a concrete three-call trace. -/
theorem open_list_invariant_and_min_pop_witness :
    ValidTrace initState
      [SearchOp.doOpen (0, 0) 0 2 (0, 0), SearchOp.doOpen (1, 0) 1 0 (0, 0),
       SearchOp.doClose] ∧
    ((∀ k, OpenInv (runOps initState
        ([SearchOp.doOpen (0, 0) 0 2 (0, 0), SearchOp.doOpen (1, 0) 1 0 (0, 0),
          SearchOp.doClose].take k))) ∧
     (∀ k (hk : k < [SearchOp.doOpen (0, 0) 0 2 (0, 0),
          SearchOp.doOpen (1, 0) 1 0 (0, 0), SearchOp.doClose].length),
        [SearchOp.doOpen (0, 0) 0 2 (0, 0), SearchOp.doOpen (1, 0) 1 0 (0, 0),
          SearchOp.doClose].get ⟨k, hk⟩ = SearchOp.doClose →
        ∃ m s2,
          close_front_open_node (runOps initState
            ([SearchOp.doOpen (0, 0) 0 2 (0, 0),
              SearchOp.doOpen (1, 0) 1 0 (0, 0),
              SearchOp.doClose].take k)) = some (m, s2) ∧
          m ∈ (runOps initState ([SearchOp.doOpen (0, 0) 0 2 (0, 0),
              SearchOp.doOpen (1, 0) 1 0 (0, 0),
              SearchOp.doClose].take k)).openList ∧
          (∀ c ∈ (runOps initState ([SearchOp.doOpen (0, 0) 0 2 (0, 0),
              SearchOp.doOpen (1, 0) 1 0 (0, 0),
              SearchOp.doClose].take k)).openList,
            ((runOps initState ([SearchOp.doOpen (0, 0) 0 2 (0, 0),
              SearchOp.doOpen (1, 0) 1 0 (0, 0),
              SearchOp.doClose].take k)).nodes m).f ≤
              ((runOps initState ([SearchOp.doOpen (0, 0) 0 2 (0, 0),
                SearchOp.doOpen (1, 0) 1 0 (0, 0),
                SearchOp.doClose].take k)).nodes c).f) ∧
          (runOps initState ([SearchOp.doOpen (0, 0) 0 2 (0, 0),
              SearchOp.doOpen (1, 0) 1 0 (0, 0),
              SearchOp.doClose].take k)).openList.count m = 1 ∧
          s2.openList.count m = 0 ∧
          (∀ c : Coord, c ≠ m → s2.openList.count c =
            (runOps initState ([SearchOp.doOpen (0, 0) 0 2 (0, 0),
              SearchOp.doOpen (1, 0) 1 0 (0, 0),
              SearchOp.doClose].take k)).openList.count c))) :=
  ⟨by decide,
   open_list_invariant_and_min_pop
     [SearchOp.doOpen (0, 0) 0 2 (0, 0), SearchOp.doOpen (1, 0) 1 0 (0, 0),
      SearchOp.doClose] (by decide)⟩

/-! ## C1 — path extraction -/

theorem parCoord_setState (s : GridMapState) (c : Coord) (st : NodeState) :
    parCoord (setState s c st) = parCoord s := by
  funext d
  by_cases hdc : d = c <;> simp [parCoord, setState, updateNode, hdc]

theorem getPathGo_eq (fuel : ℕ) :
    ∀ (s : GridMapState) (p : Coord),
      getPathGo s fuel p =
        (chain (parCoord s) fuel p,
         markResults s (chain (parCoord s) fuel p),
         chainEnd (parCoord s) fuel p) := by
  induction fuel with
  | zero => intro s p; rfl
  | succ fuel ih =>
    intro s p
    by_cases hp : parCoord s p = p
    · simp [getPathGo, chain, chainEnd, hp, markResults]
    · simp only [getPathGo, chain, chainEnd, if_neg hp]
      rw [ih (setState s p NodeState.result) (parCoord s p),
        parCoord_setState]
      rfl

theorem get_path_eq (s : GridMapState) (n : Coord) (fuel : ℕ) :
    get_path s n fuel =
      (chain (parCoord s) fuel n,
       setState (setState (markResults s (chain (parCoord s) fuel n)) n
         NodeState.goal) (chainEnd (parCoord s) fuel n) NodeState.start) := by
  unfold get_path
  rw [getPathGo_eq]

theorem reachesFix_step (par : Coord → Coord) (k : ℕ) (p : Coord)
    (h : reachesFix par (k + 1) p) : reachesFix par k (par p) := h

theorem reachesFix_of_fix (par : Coord → Coord) (k : ℕ) (p : Coord)
    (h : par p = p) : reachesFix par k p := by
  induction k with
  | zero => exact h
  | succ k ih => unfold reachesFix iterPar; rw [h]; exact ih

theorem chain_fuel_eq (par : Coord → Coord) :
    ∀ (k : ℕ) (p : Coord), reachesFix par k p → ∀ m : ℕ,
      chain par (k + m) p = chain par k p ∧
      chainEnd par (k + m) p = chainEnd par k p := by
  intro k
  induction k with
  | zero =>
    intro p hfix m
    have hp : par p = p := hfix
    rw [Nat.zero_add]
    cases m with
    | zero => exact ⟨rfl, rfl⟩
    | succ m => simp [chain, chainEnd, hp]
  | succ k ih =>
    intro p hfix m
    by_cases hp : par p = p
    · rw [show k + 1 + m = (k + m) + 1 from by omega]
      simp [chain, chainEnd, hp]
    · rw [show k + 1 + m = (k + m) + 1 from by omega]
      simp only [chain, chainEnd, if_neg hp]
      obtain ⟨h1, h2⟩ := ih (par p) (reachesFix_step par k p hfix) m
      rw [h1, h2]
      exact ⟨rfl, rfl⟩

theorem chainEnd_fix (par : Coord → Coord) :
    ∀ (k : ℕ) (p : Coord), reachesFix par k p →
      par (chainEnd par k p) = chainEnd par k p := by
  intro k
  induction k with
  | zero => intro p hfix; exact hfix
  | succ k ih =>
    intro p hfix
    by_cases hp : par p = p
    · simp [chainEnd, hp]
    · simp only [chainEnd, if_neg hp]
      exact ih (par p) (reachesFix_step par k p hfix)

theorem chain_mem_not_fix (par : Coord → Coord) :
    ∀ (k : ℕ) (p : Coord), ∀ c ∈ chain par k p, par c ≠ c := by
  intro k
  induction k with
  | zero => intro p c hc; simp [chain] at hc
  | succ k ih =>
    intro p c hc
    by_cases hp : par p = p
    · simp [chain, hp] at hc
    · simp only [chain, if_neg hp, List.mem_cons] at hc
      rcases hc with rfl | hc
      · exact hp
      · exact ih (par p) c hc

theorem chainEnd_not_mem_chain (par : Coord → Coord) (k : ℕ) (p : Coord)
    (hfix : reachesFix par k p) : chainEnd par k p ∉ chain par k p := by
  intro hmem
  exact chain_mem_not_fix par k p _ hmem (chainEnd_fix par k p hfix)

theorem chain_head (par : Coord → Coord) (k : ℕ) (p : Coord)
    (hfix : reachesFix par k p) :
    (chain par k p).head? = if par p = p then none else some p := by
  cases k with
  | zero =>
    have hp : par p = p := hfix
    rw [if_pos hp]
    rfl
  | succ k => by_cases hp : par p = p <;> simp [chain, hp]

theorem pathTo_head (par : Coord → Coord) (k : ℕ) (p : Coord) :
    (chain par k p ++ [chainEnd par k p]).head? = some p := by
  cases k with
  | zero => rfl
  | succ k => by_cases hp : par p = p <;> simp [chain, chainEnd, hp]

theorem pathTo_chain (R : Coord → Coord → Prop) (par : Coord → Coord) :
    ∀ (k : ℕ) (p : Coord), (∀ a ∈ chain par k p, R a (par a)) →
      List.Chain' R (chain par k p ++ [chainEnd par k p]) := by
  intro k
  induction k with
  | zero => intro p _; simp [chain, chainEnd]
  | succ k ih =>
    intro p hR
    by_cases hp : par p = p
    · simp [chain, chainEnd, hp]
    · simp only [chain, chainEnd, if_neg hp, List.cons_append]
      rw [List.chain'_cons']
      constructor
      · intro b hb
        rw [pathTo_head par k (par p)] at hb
        cases hb
        exact hR p (by simp [chain, if_neg hp])
      · exact ih (par p) fun a ha =>
          hR a (by simp only [chain, if_neg hp, List.mem_cons]; exact Or.inr ha)

theorem finalState_nodes_aux :
    ∀ (s : GridMapState) (ch : List Coord) (n st c : Coord),
      (∀ d : Coord, (markResults s ch).nodes d =
        if d ∈ ch then { s.nodes d with state := NodeState.result }
        else s.nodes d) →
      (setState (setState (markResults s ch) n NodeState.goal) st
          NodeState.start).nodes c =
        if c = st then { s.nodes c with state := NodeState.start }
        else if c = n then { s.nodes c with state := NodeState.goal }
        else if c ∈ ch then { s.nodes c with state := NodeState.result }
        else s.nodes c := by
  intro s ch n st c hm
  by_cases h1 : c = st
  · subst h1
    rw [if_pos rfl]
    simp only [setState]
    rw [updateNode_same]
    by_cases h2 : c = n
    · subst h2
      rw [updateNode_same, hm]
      split_ifs <;> rfl
    · rw [updateNode_other _ _ _ _ h2, hm]
      split_ifs <;> rfl
  · rw [if_neg h1]
    simp only [setState]
    rw [updateNode_other _ _ _ _ h1]
    by_cases h2 : c = n
    · subst h2
      rw [if_pos rfl, updateNode_same, hm]
      split_ifs <;> rfl
    · rw [if_neg h2, updateNode_other _ _ _ _ h2, hm]

theorem markResults_nodes :
    ∀ (l : List Coord) (s : GridMapState) (c : Coord),
      (markResults s l).nodes c =
        if c ∈ l then { s.nodes c with state := NodeState.result }
        else s.nodes c := by
  intro l
  induction l with
  | nil => intro s c; simp [markResults]
  | cons a l ih =>
    intro s c
    show (markResults (setState s a NodeState.result) l).nodes c = _
    rw [ih]
    by_cases hcl : c ∈ l
    · rw [if_pos hcl, if_pos (List.mem_cons_of_mem a hcl)]
      by_cases hca : c = a <;>
        simp [setState, updateNode, hca]
    · rw [if_neg hcl]
      by_cases hca : c = a
      · subst hca
        rw [if_pos (List.mem_cons_self c l)]
        simp [setState, updateNode]
      · rw [if_neg (by simp [hca, hcl])]
        simp [setState, updateNode, hca]

/-- C1 (counterexample): a `get_path` call whose parent chain reaches the
self-parenting start cell `(0,0)` returns `[(4,4), (2,2)]` — the originally
opened start cell is not an element of the returned sequence at all (the
loop stops before pushing it), so the sequence's first and last elements are
not the start and goal pair; moreover its successive elements are at
Chebyshev distance 2, not 1 (the parent links handed in by the driver are
not constrained to be adjacent). -/
theorem get_path_claim_counterexample :
    reachesFix (parCoord c1s) 2 (4, 4) ∧
    parCoord c1s (0, 0) = (0, 0) ∧
    (get_path c1s (4, 4) 2).1 = [(4, 4), (2, 2)] ∧
    (0, 0) ∉ (get_path c1s (4, 4) 2).1 ∧
    chebyshev (4, 4) (2, 2) ≠ 1 := by
  decide

/-- C1 (amended): if the parent chain from `n` reaches a self-parenting cell
within `k` steps, then `get_path(n)` terminates (its result is unchanged by
any extra fuel) and returns the parent chain from `n` up to but excluding
the self-parenting start cell, in goal-to-start order: the first element is
`n` itself (none, when `n` is already self-parenting), successive elements
follow parent links — hence are Chebyshev-adjacent whenever the parent links
of the returned cells are adjacent — and the start cell, a parent-link fixed
point, is not an element of the returned sequence; each returned cell's
state is set to `result`, then `n`'s state to `goal`, and the start cell's
state to `start`, all other records being untouched. -/
theorem get_path_spec (s : GridMapState) (n : Coord) (k : ℕ)
    (hfix : reachesFix (parCoord s) k n) :
    (∀ m : ℕ, get_path s n (k + m) = get_path s n k) ∧
    (get_path s n k).1 = chain (parCoord s) k n ∧
    ((get_path s n k).1.head? =
      if parCoord s n = n then none else some n) ∧
    List.Chain' (fun a b => b = parCoord s a)
      ((get_path s n k).1 ++ [chainEnd (parCoord s) k n]) ∧
    ((∀ a ∈ (get_path s n k).1, chebyshev a (parCoord s a) = 1) →
      List.Chain' (fun a b => chebyshev a b = 1)
        ((get_path s n k).1 ++ [chainEnd (parCoord s) k n])) ∧
    parCoord s (chainEnd (parCoord s) k n) = chainEnd (parCoord s) k n ∧
    chainEnd (parCoord s) k n ∉ (get_path s n k).1 ∧
    (∀ c : Coord, ((get_path s n k).2).nodes c =
      if c = chainEnd (parCoord s) k n then
        { s.nodes c with state := NodeState.start }
      else if c = n then { s.nodes c with state := NodeState.goal }
      else if c ∈ (get_path s n k).1 then
        { s.nodes c with state := NodeState.result }
      else s.nodes c) := by
  have hpath : (get_path s n k).1 = chain (parCoord s) k n := by
    rw [get_path_eq]
  refine ⟨?_, hpath, ?_, ?_, ?_, chainEnd_fix _ k n hfix, ?_, ?_⟩
  · intro m
    rw [get_path_eq, get_path_eq,
      (chain_fuel_eq (parCoord s) k n hfix m).1,
      (chain_fuel_eq (parCoord s) k n hfix m).2]
  · rw [hpath]
    exact chain_head _ k n hfix
  · rw [hpath]
    exact pathTo_chain _ _ k n fun a _ => rfl
  · intro hadj
    rw [hpath] at hadj ⊢
    exact pathTo_chain _ _ k n hadj
  · rw [hpath]
    exact chainEnd_not_mem_chain _ k n hfix
  · intro c
    rw [get_path_eq]
    exact finalState_nodes_aux s (chain (parCoord s) k n) n
      (chainEnd (parCoord s) k n) c
      (fun d => markResults_nodes (chain (parCoord s) k n) s d)

/-- Witness for the amended C1 at the concrete scenario `c1s`. -/
theorem get_path_spec_witness :
    reachesFix (parCoord c1s) 2 (4, 4) ∧
    ((∀ m : ℕ, get_path c1s (4, 4) (2 + m) = get_path c1s (4, 4) 2) ∧
     (get_path c1s (4, 4) 2).1 = chain (parCoord c1s) 2 (4, 4) ∧
     ((get_path c1s (4, 4) 2).1.head? =
       if parCoord c1s (4, 4) = (4, 4) then none else some (4, 4)) ∧
     List.Chain' (fun a b => b = parCoord c1s a)
       ((get_path c1s (4, 4) 2).1 ++ [chainEnd (parCoord c1s) 2 (4, 4)]) ∧
     ((∀ a ∈ (get_path c1s (4, 4) 2).1, chebyshev a (parCoord c1s a) = 1) →
       List.Chain' (fun a b => chebyshev a b = 1)
         ((get_path c1s (4, 4) 2).1 ++ [chainEnd (parCoord c1s) 2 (4, 4)])) ∧
     parCoord c1s (chainEnd (parCoord c1s) 2 (4, 4)) =
       chainEnd (parCoord c1s) 2 (4, 4) ∧
     chainEnd (parCoord c1s) 2 (4, 4) ∉ (get_path c1s (4, 4) 2).1 ∧
     (∀ c : Coord, ((get_path c1s (4, 4) 2).2).nodes c =
       if c = chainEnd (parCoord c1s) 2 (4, 4) then
         { c1s.nodes c with state := NodeState.start }
       else if c = (4, 4) then { c1s.nodes c with state := NodeState.goal }
       else if c ∈ (get_path c1s (4, 4) 2).1 then
         { c1s.nodes c with state := NodeState.result }
       else c1s.nodes c)) :=
  ⟨by decide, get_path_spec c1s (4, 4) 2 (by decide)⟩

end GridMapModel
